import Mathlib

/-!
Shallow embedding of the historical assembly version backfill pipeline
(`flows/parsers/backfill_historical_versions.py`) of the genomehubs/data
repository, together with theorems settling the specification claims about
it.

The embedding models, faithfully to the Python source:
- the Accession Codec (`parse_accession`, `parse_version`, the permissive
  base extraction `re.match(r'(GC[AF]_\d+)', ...)` and the strict
  command-injection gate `re.match(r"^GC[AF]_\d{9}\.\d+$", ...)`),
- the Cache Store (`get_cache_path`, `load_from_cache`, `save_to_cache`)
  over an explicit file-system state,
- Version Discovery (`find_all_assembly_versions`), with the network, the
  external `datasets` tool and the clock passed as explicit parameters,
- the Backfill Scan (`identify_assemblies_needing_backfill`),
- the Checkpoint Store (`load_checkpoint`, `save_checkpoint`), with the
  write modelled as its observable sequence of file states,
- the Backfill Driver loop (task iteration, accumulator, periodic flush).

Python exceptions are modelled with `Except PyErr`; machine-level detail the
claims do not touch (Unicode decoding, actual process spawning, YAML config)
stays behind explicit function parameters.
-/

/-- Minimal JSON value model for the payloads the pipeline moves around. -/
inductive Json where
  | null
  | bool (b : Bool)
  | num (n : Int)
  | str (s : String)
  | arr (elems : List Json)
  | obj (fields : List (String × Json))

/-- A Python `dict` with string keys, as an association list in insertion
order (Python 3.7+ dicts preserve insertion order; keys are unique in every
dict this pipeline builds). -/
abbrev PyDict := List (String × Json)

deriving instance DecidableEq for Except

/-- The Python exceptions this embedding distinguishes. -/
inductive PyErr where
  | keyError
  | valueError
  | typeError
deriving DecidableEq

/-- `d[k]` as an optional lookup (first matching key). -/
def pyGet (d : PyDict) (k : String) : Option Json :=
  (d.find? (fun kv => kv.1 = k)).map (fun kv => kv.2)

/-- `d[k]` where the caller has already checked `k in d`; defaults to
`Json.null` (unreachable on guarded paths). -/
def pyGetD (d : PyDict) (k : String) : Json :=
  (pyGet d k).getD Json.null

/-- Python truthiness of a dict: nonempty. -/
def dictTruthy (d : PyDict) : Bool :=
  !d.isEmpty

/-- Python `k in d` for a dict. -/
def hasKey (d : PyDict) (k : String) : Bool :=
  (pyGet d k).isSome

/-- `d[k] = v` on a Python dict: replace in place if the key exists
(keeping its position), else append. -/
def dictInsert (d : PyDict) (k : String) (v : Json) : PyDict :=
  if d.any (fun kv => kv.1 = k) then
    d.map (fun kv => if kv.1 = k then (k, v) else kv)
  else
    d ++ [(k, v)]

/-- Elements of a JSON array value; non-arrays give `[]` (the discovery
cache entries written by this module always store a list under
`"versions"`). -/
def pyListElems : Json → List Json
  | Json.arr elems => elems
  | _ => []

/-!  ## Accession Codec  -/

/-- Helper for `pySplitDot`: accumulates the current segment (reversed). -/
def splitDotAux : List Char → List Char → List String
  | [], acc => [String.mk acc.reverse]
  | c :: cs, acc =>
    if c = '.' then String.mk acc.reverse :: splitDotAux cs []
    else splitDotAux cs (c :: acc)

/-- Python `s.split('.')`: splits at every literal dot; always returns a
nonempty list; `"".split('.') == [""]`. -/
def pySplitDot (s : String) : List String :=
  splitDotAux s.toList []

/-- Decimal value of a digit list (caller checks the digits). -/
def digitsToNat (cs : List Char) : Nat :=
  cs.foldl (fun n c => n * 10 + (c.toNat - 48)) 0

/-- Parse a nonempty all-digit character list. -/
def parseDigits (cs : List Char) : Option Nat :=
  if !cs.isEmpty && cs.all (fun c => c.isDigit) then some (digitsToNat cs)
  else none

/-- Python `int(s)` on the decimal literals this pipeline feeds it:
an optional sign followed by one or more digits; anything else raises
`ValueError` (modelled as `none`). -/
def pyInt (s : String) : Option Int :=
  match s.toList with
  | '-' :: rest => (parseDigits rest).map (fun n => -(n : Int))
  | '+' :: rest => (parseDigits rest).map (fun n => (n : Int))
  | cs => (parseDigits cs).map (fun n => (n : Int))

/-- `parse_accession`: `parts = accession.split('.')`;
`base = parts[0]`; `version = int(parts[1]) if len(parts) > 1 else 1`.
A non-integer second segment raises `ValueError`. -/
def parse_accession (accession : String) : Except PyErr (String × Int) :=
  match pySplitDot accession with
  | [] => Except.error PyErr.valueError
  | [base] => Except.ok (base, 1)
  | base :: p1 :: _ =>
    match pyInt p1 with
    | some v => Except.ok (base, v)
    | none => Except.error PyErr.valueError

/-- `parse_version`: `parts = accession.split('.')`;
`int(parts[1]) if len(parts) > 1 else 1`. -/
def parse_version (accession : String) : Except PyErr Int :=
  match pySplitDot accession with
  | [] => Except.error PyErr.valueError
  | [_] => Except.ok 1
  | _ :: p1 :: _ =>
    match pyInt p1 with
    | some v => Except.ok v
    | none => Except.error PyErr.valueError

/-- `re.match(r'(GC[AF]_\d+)', base_accession)` and `.group(1)`: the
permissive base extraction at the top of `find_all_assembly_versions`.
Matches at the start of the string: literal `GC`, one of `A`/`F`, `_`,
then a maximal nonempty digit run. -/
def extractBase (accession : String) : Option String :=
  match accession.toList with
  | 'G' :: 'C' :: x :: '_' :: rest =>
    if x = 'A' || x = 'F' then
      if (rest.takeWhile (fun c => c.isDigit)).isEmpty then none
      else some (String.mk
        ('G' :: 'C' :: x :: '_' :: rest.takeWhile (fun c => c.isDigit)))
    else none
  | _ => none

/-- Core of the strict accession pattern `GC[AF]_\d{9}\.\d+` matched
against a whole character list: literal `GC`, `A` or `F`, `_`, exactly
nine digits, a literal dot, one or more digits, end of string. -/
def strictCore (cs : List Char) : Bool :=
  match cs with
  | 'G' :: 'C' :: x :: '_' :: rest =>
    (x == 'A' || x == 'F') &&
    (rest.take 9).length == 9 && (rest.take 9).all (fun c => c.isDigit) &&
    (match rest.drop 9 with
     | '.' :: ds => !ds.isEmpty && ds.all (fun c => c.isDigit)
     | _ => false)
  | _ => false

/-- The whole-string strict accession shape of the claim: archive code
`GC[AF]_`, exactly nine digits, a dot, and digits. -/
def strictAccessionMatch (s : String) : Bool :=
  strictCore s.toList

/-- `re.match(r"^GC[AF]_\d{9}\.\d+$", version_acc)` as a Bool: the gate
used before building the `datasets` command.  Python's `$` also matches
just before a single trailing newline, so that case is included (it is
unreachable for the candidates this pipeline produces, which end in a
digit). -/
def pyStrictGate (s : String) : Bool :=
  strictCore s.toList ||
    (match s.toList.getLast? with
     | some c => c == '\n' && strictCore s.toList.dropLast
     | none => false)

/-!  ## Cache Store  -/

/-- One file in the cache directory: its modification time (seconds) and
its parsed JSON content, `none` when the bytes do not parse as JSON. -/
structure CacheFile where
  mtime : Int
  content : Option PyDict

/-- The cache directory as a map from path to file (``none`` = no file). -/
abbrev CacheFS := String → Option CacheFile

/-- `get_cache_path`: `f"tmp/backfill_cache/{cache_type}/{identifier}.json"`. -/
def get_cache_path (cache_type : String) (identifier : String) : String :=
  "tmp/backfill_cache/" ++ cache_type ++ "/" ++ identifier ++ ".json"

/-- The body of `load_from_cache` before its `except` clause:
if the file exists and `now - mtime < max_age_days * 24 * 3600`, parse it
(`json.load` raises on corrupt bytes, modelled as `Except.error`);
otherwise fall through to `return {}`. -/
def loadFromCacheBody (fs : CacheFS) (now : Int) (cache_path : String)
    (max_age_days : Int) : Except PyErr PyDict :=
  match fs cache_path with
  | none => Except.ok []
  | some file =>
    if now - file.mtime < max_age_days * 24 * 3600 then
      match file.content with
      | some d => Except.ok d
      | none => Except.error PyErr.valueError
    else
      Except.ok []

/-- `load_from_cache`: the body with every exception caught and turned
into the empty dict (a warning is printed, not modelled). -/
def load_from_cache (fs : CacheFS) (now : Int) (cache_path : String)
    (max_age_days : Int) : PyDict :=
  match loadFromCacheBody fs now cache_path max_age_days with
  | Except.ok d => d
  | Except.error _ => []

/-- `save_to_cache` on its success path: write `data` at `cache_path`,
stamping the current time (a filesystem failure is caught and logged in
the source; the claims about the cache condition on a successful write). -/
def save_to_cache (fs : CacheFS) (cache_path : String) (data : PyDict)
    (now : Int) : CacheFS :=
  fun p => if p = cache_path then some { mtime := now, content := some data } else fs p

/-- The cache-hit test of `find_all_assembly_versions`:
`if cached_data and 'versions' in cached_data`. -/
def discoveryCacheHit (cached_data : PyDict) : Bool :=
  dictTruthy cached_data && hasKey cached_data "versions"

/-- The metadata-cache-hit test inside the candidate loop:
`if cached_metadata and 'metadata' in cached_metadata`. -/
def metadataCacheHit (cached_metadata : PyDict) : Bool :=
  dictTruthy cached_metadata && hasKey cached_metadata "metadata"

/-!  ## Version Discovery: textual scan, dedup and sort  -/

/-- Lexicographic comparison of character lists by Unicode code point:
Python's `<=` on `str`, restricted to the strings this pipeline sorts. -/
def charListLe : List Char → List Char → Bool
  | [], _ => true
  | _ :: _, [] => false
  | a :: as, b :: bs =>
    if a.toNat < b.toNat then true
    else if b.toNat < a.toNat then false
    else charListLe as bs

/-- Python string `<=`, as a proposition usable by the sort. -/
def pyStrLe (a b : String) : Prop :=
  charListLe a.toList b.toList = true

instance : DecidableRel pyStrLe :=
  fun a b => instDecidableEqBool (charListLe a.toList b.toList) true

/-- One attempted regex match of `base + "\." + "\d+"` at the head of
`cs`: the literal base, a literal dot, then a maximal nonempty digit run.
On success returns the matched text and the remaining input after it. -/
def tryMatch (base : List Char) (cs : List Char) :
    Option (List Char × List Char) :=
  if cs.take base.length = base then
    match cs.drop base.length with
    | '.' :: rest =>
      if (rest.takeWhile (fun c => c.isDigit)).isEmpty then none
      else some (base ++ '.' :: rest.takeWhile (fun c => c.isDigit),
                 rest.drop (rest.takeWhile (fun c => c.isDigit)).length)
    | _ => none
  else none

/-- `re.findall(rf"{base}\.\d+", text)` over a character list, with fuel
(the initial fuel is the text length, which always suffices): scan left to
right, at each position try a match; on success emit it and continue after
the match (non-overlapping), otherwise advance one character. -/
def findallAux (base : List Char) : Nat → List Char → List (List Char)
  | 0, _ => []
  | _, [] => []
  | fuel + 1, c :: cs =>
    match tryMatch base (c :: cs) with
    | some (m, rest) => m :: findallAux base fuel rest
    | none => findallAux base fuel cs

/-- `re.findall(version_pattern, response.text)` for
`version_pattern = rf"{base}\.\d+"`. -/
def pyFindallVersions (base : String) (text : String) : List String :=
  (findallAux base.toList text.toList.length text.toList).map String.mk

/-- `sorted(list(set(found_versions)))`: the distinct found accessions in
ascending Python string (lexicographic) order.  `List.dedup` keeps one
copy of each element and `insertionSort` arranges them by `pyStrLe`; for
distinct elements under a total order this is exactly Python's
`sorted(set(...))`. -/
def uniqueVersions (found_versions : List String) : List String :=
  List.insertionSort pyStrLe found_versions.dedup

/-!  ## Version Discovery: the full `find_all_assembly_versions`  -/

/-- `f"https://ftp.ncbi.nlm.nih.gov/genomes/all/{base[:3]}/{base[4:7]}/{base[7:10]}/{base[10:13]}/"`. -/
def pySlice (s : String) (a b : Nat) : String :=
  String.mk ((s.toList.drop a).take (b - a))

/-- The FTP directory-listing URL for a base accession. -/
def ftp_url (base : String) : String :=
  "https://ftp.ncbi.nlm.nih.gov/genomes/all/" ++ pySlice base 0 3 ++ "/" ++
    pySlice base 4 7 ++ "/" ++ pySlice base 7 10 ++ "/" ++ pySlice base 10 13 ++ "/"

/-- The network: URL to HTTP status and body text; `none` models a raised
`requests` exception (caught by the function's outer `except`). -/
abbrev Net := String → Option (Nat × String)

/-- The external `datasets summary genome accession <acc> --as-json-lines`
invocation: `some j` models exit code 0 with nonempty stdout parsing to
`j`; `none` models a nonzero exit, empty output, or a raised error
(caught by the inner `except`). -/
abbrev DatasetsTool := String → Option Json

/-- One iteration of the `for version_acc in unique_versions` loop,
threading the accumulated version list and the cache filesystem:
consult the metadata cache (30 days); on a hit append the cached
metadata; on a miss apply the strict gate, then run the `datasets` tool
and cache a success. -/
def process_candidate (datasets : DatasetsTool) (now : Int)
    (st : List Json × CacheFS) (version_acc : String) : List Json × CacheFS :=
  let versions := st.1
  let fs := st.2
  let metadata_cache_path := get_cache_path "metadata" version_acc
  let cached_metadata := load_from_cache fs now metadata_cache_path 30
  if metadataCacheHit cached_metadata then
    (versions ++ [pyGetD cached_metadata "metadata"], fs)
  else if pyStrictGate version_acc then
    match datasets version_acc with
    | some version_data =>
      (versions ++ [version_data],
       save_to_cache fs metadata_cache_path
         [("metadata", version_data), ("cached_at", Json.num now)] now)
    | none => (versions, fs)
  else
    (versions, fs)

/-- `find_all_assembly_versions`, returning the version list and the
cache filesystem after the call.  Steps, as in the source: extract the
base (empty list if it fails); consult the discovery cache (7 days);
on a miss fetch the directory listing (empty list and unchanged cache on
a network error or non-200 status); scan, dedup and sort the candidates;
resolve each through `process_candidate`; finally cache the complete
discovery entry. -/
def find_all_assembly_versions (net : Net) (datasets : DatasetsTool)
    (fs : CacheFS) (now : Int) (base_accession : String) :
    List Json × CacheFS :=
  match extractBase base_accession with
  | none => ([], fs)
  | some base =>
    let version_cache_path := get_cache_path "version_discovery" base
    let cached_data := load_from_cache fs now version_cache_path 7
    if discoveryCacheHit cached_data then
      (pyListElems (pyGetD cached_data "versions"), fs)
    else
      match net (ftp_url base) with
      | none => ([], fs)
      | some (status, text) =>
        if status ≠ 200 then ([], fs)
        else
          let unique_versions := uniqueVersions (pyFindallVersions base text)
          let resolved := unique_versions.foldl (process_candidate datasets now) ([], fs)
          let cache_data : PyDict :=
            [("versions", Json.arr resolved.1),
             ("base_accession", Json.str base),
             ("discovered_at", Json.num now),
             ("ftp_url", Json.str (ftp_url base))]
          (resolved.1, save_to_cache resolved.2 version_cache_path cache_data now)

/-- One iteration of the candidate loop, collecting the accessions for
which a `datasets` command invocation is built (metadata-cache miss and
strict gate passed), threading the cache exactly as `process_candidate`
does. -/
def collect_invocation (datasets : DatasetsTool) (now : Int)
    (st : List String × CacheFS) (version_acc : String) :
    List String × CacheFS :=
  let invoked := st.1
  let fs := st.2
  let metadata_cache_path := get_cache_path "metadata" version_acc
  let cached_metadata := load_from_cache fs now metadata_cache_path 30
  if metadataCacheHit cached_metadata then
    (invoked, fs)
  else if pyStrictGate version_acc then
    match datasets version_acc with
    | some version_data =>
      (invoked ++ [version_acc],
       save_to_cache fs metadata_cache_path
         [("metadata", version_data), ("cached_at", Json.num now)] now)
    | none => (invoked ++ [version_acc], fs)
  else
    (invoked, fs)

/-- The accessions interpolated into a `datasets` command during one call
of `find_all_assembly_versions` (same control flow, collecting instead of
accumulating metadata). -/
def invokedAccessions (net : Net) (datasets : DatasetsTool) (fs : CacheFS)
    (now : Int) (base_accession : String) : List String :=
  match extractBase base_accession with
  | none => []
  | some base =>
    if discoveryCacheHit
        (load_from_cache fs now (get_cache_path "version_discovery" base) 7) then []
    else
      match net (ftp_url base) with
      | none => []
      | some (status, text) =>
        if status ≠ 200 then []
        else
          ((uniqueVersions (pyFindallVersions base text)).foldl
            (collect_invocation datasets now) ([], fs)).1

/-!  ## Backfill Scan  -/

/-- One pending backfill unit, as built by
`identify_assemblies_needing_backfill`. -/
structure BackfillTask where
  base_accession : String
  current_version : Int
  current_accession : String
  historical_versions_needed : List Int
deriving DecidableEq

/-- Python `list(range(1, v))`. -/
def pyRange1 (v : Int) : List Int :=
  (List.range' 1 (v - 1).toNat).map (fun n => (n : Int))

/-- Processing of one corpus record inside the scan loop:
`accession = assembly['accession']` (raises `KeyError` when absent,
`AttributeError`-like failure — modelled `typeError` — when not a
string), then `parse_accession`; a record with version > 1 yields a
task, otherwise nothing. -/
def scanRecord (assembly : PyDict) : Except PyErr (Option BackfillTask) :=
  match pyGet assembly "accession" with
  | none => Except.error PyErr.keyError
  | some (Json.str accession) =>
    match parse_accession accession with
    | Except.error e => Except.error e
    | Except.ok (base_acc, version) =>
      if version > 1 then
        Except.ok (some
          { base_accession := base_acc
            current_version := version
            current_accession := accession
            historical_versions_needed := pyRange1 version })
      else
        Except.ok none
  | some _ => Except.error PyErr.typeError

/-- `identify_assemblies_needing_backfill` over a corpus already split
into lines and JSON-parsed (one `PyDict` per line): streams the records
in order, appending a task for each record with version > 1; any raised
exception propagates (there is no `try`/`except` in this function). -/
def identify_assemblies_needing_backfill (corpus : List PyDict) :
    Except PyErr (List BackfillTask) :=
  match corpus with
  | [] => Except.ok []
  | assembly :: rest =>
    match scanRecord assembly with
    | Except.error e => Except.error e
    | Except.ok t? =>
      match identify_assemblies_needing_backfill rest with
      | Except.error e => Except.error e
      | Except.ok ts =>
        match t? with
        | some t => Except.ok (t :: ts)
        | none => Except.ok ts

/-- The spec's description of the scan, stated per record ("for any
corpus record with version `v > 1`, emit exactly one task with
`historical_versions_needed == list(range(1, v))`; for `v == 1`, no
task"), used to compare the implementation's task list against the
spec's. -/
def specScanTask (assembly : PyDict) : Option BackfillTask :=
  match pyGet assembly "accession" with
  | some (Json.str accession) =>
    match parse_accession accession with
    | Except.ok (base_acc, version) =>
      if version > 1 then
        some
          { base_accession := base_acc
            current_version := version
            current_accession := accession
            historical_versions_needed := pyRange1 version }
      else none
    | Except.error _ => none
  | _ => none

/-!  ## Checkpoint Store  -/

/-- Observable content of the checkpoint file: `truncated` is the state
right after `open(checkpoint_file, 'w')` has truncated the file and
before `json.dump` has written it; `written` is the completed
`{processed_count, timestamp}` object. -/
inductive CkptContent where
  | truncated
  | written (processed_count : Nat) (timestamp : String)
deriving DecidableEq

/-- `load_checkpoint`: absent file gives `{}`; an existing file is
`json.load`ed, which raises on a truncated/partial file (there is no
`try`/`except` here). -/
def load_checkpoint (file : Option CkptContent) : Except PyErr PyDict :=
  match file with
  | none => Except.ok []
  | some CkptContent.truncated => Except.error PyErr.valueError
  | some (CkptContent.written processed_count timestamp) =>
    Except.ok
      [("processed_count", Json.num processed_count),
       ("timestamp", Json.str timestamp)]

/-- `save_checkpoint` writes the checkpoint path itself with mode `'w'`
(truncate in place, no temporary file, no rename) and then dumps the
JSON object; the list is the sequence of states of the checkpoint file
observable by a reader during the call, first to last. -/
def save_checkpoint_states (previous : Option CkptContent)
    (processed_count : Nat) (timestamp : String) : List (Option CkptContent) :=
  [previous,
   some CkptContent.truncated,
   some (CkptContent.written processed_count timestamp)]

/-!  ## Backfill Driver  -/

/-- Driver loop state: the processed-task counter, the in-memory row
accumulator (`parsed`, keyed by genbank accession), the checkpoint
file's count (`none` = no checkpoint saved/on disk), and the sequence of
`write_tsv` batches issued so far. -/
structure DriverState where
  processed : Nat
  parsed : PyDict
  checkpoint : Option Nat
  writes : List PyDict

/-- One iteration of the driver's task loop.  `discovery t` abstracts
`find_all_assembly_versions` for the task (the list of version metadata
records it returns); `rowOf t v` abstracts the inner per-version body:
`none` covers both the `version_num >= current_version` skip and a
caught per-record parse exception, `some (key, row)` a successful parse
stored as `parsed[key] = row`.  An empty discovery takes the
`continue` branch, which increments `processed` but skips the
checkpoint block; otherwise, after the inner loop, when the incremented
count is a multiple of 100 the accumulated rows are written, a
checkpoint with the new count is saved, and the accumulator is
cleared. -/
def driverStep (discovery : BackfillTask → List Json)
    (rowOf : BackfillTask → Json → Option (String × Json))
    (s : DriverState) (t : BackfillTask) : DriverState :=
  let all_versions := discovery t
  if all_versions.isEmpty then
    { s with processed := s.processed + 1 }
  else
    let parsed1 := all_versions.foldl
      (fun d v =>
        match rowOf t v with
        | some (k, row) => dictInsert d k row
        | none => d) s.parsed
    let p1 := s.processed + 1
    if p1 % 100 = 0 then
      { processed := p1, parsed := [], checkpoint := some p1,
        writes := s.writes ++ [parsed1] }
    else
      { processed := p1, parsed := parsed1, checkpoint := s.checkpoint,
        writes := s.writes }

/-- The driver's task loop followed by the end-of-input handling: after
the last task, `if parsed:` the remaining rows are written with
`write_tsv` — and no checkpoint is saved there. -/
def runBackfillDriver (discovery : BackfillTask → List Json)
    (rowOf : BackfillTask → Json → Option (String × Json))
    (tasks : List BackfillTask) (s0 : DriverState) : DriverState :=
  let s := tasks.foldl (driverStep discovery rowOf) s0
  if s.parsed.isEmpty then s
  else { s with writes := s.writes ++ [s.parsed] }

/-!  ## Theorems

Helper lemmas come first, then one theorem per claim (with its witness or
counterexample where required).  -/

/-- C5: the claim that `parse_accession` splits on the **last** literal dot
fails: with more than one dot the code takes everything before the *first*
dot as the base and parses the segment right after it as the version, so
`parse_accession "A.2.3"` yields `("A", 2)`, not `("A.2", 3)` as the claim
requires. -/
theorem parse_accession_last_dot_cex :
    parse_accession "A.2.3" ≠ Except.ok ("A.2", 3) ∧
    parse_accession "A.2.3" = Except.ok ("A", 2) := by
  constructor
  · decide
  · rfl

/-- Helper: splitting a dot-free segment followed by a dot emits that
segment and continues on the remainder. -/
theorem splitDotAux_append (cs rest acc : List Char) (h : ∀ c ∈ cs, c ≠ '.') :
    splitDotAux (cs ++ '.' :: rest) acc
      = String.mk (acc.reverse ++ cs) :: splitDotAux rest [] := by
  induction cs generalizing acc with
  | nil => simp [splitDotAux]
  | cons c cs ih =>
    have hc : c ≠ '.' := h c (List.mem_cons_self c cs)
    simp only [List.cons_append, splitDotAux, if_neg hc, List.append_eq]
    rw [ih (c :: acc) (fun x hx => h x (List.mem_cons_of_mem c hx))]
    simp

/-- Helper: Python `split` never returns an empty list. -/
theorem splitDotAux_ne_nil (cs acc : List Char) : splitDotAux cs acc ≠ [] := by
  induction cs generalizing acc with
  | nil => simp [splitDotAux]
  | cons c cs ih =>
    by_cases hc : c = '.'
    · simp [splitDotAux, hc]
    · simp only [splitDotAux, if_neg hc]
      exact ih (c :: acc)

/-- Helper: `split('.')` of a string that starts with a dot-free base
followed by a dot yields the base and then the split of the rest. -/
theorem pySplitDot_first (b r : String) (hb : '.' ∉ b.toList) :
    pySplitDot (b ++ "." ++ r) = b :: pySplitDot r := by
  unfold pySplitDot
  have h1 : (b ++ "." ++ r).toList = b.toList ++ '.' :: r.toList := by
    have e1 : (b ++ "." ++ r).toList = (b.toList ++ ['.']) ++ r.toList := rfl
    rw [e1, List.append_assoc]
    rfl
  rw [h1, splitDotAux_append b.toList r.toList []
    (fun c hc hcdot => hb (hcdot ▸ hc))]
  simp

/-- Helper: a character list containing a dot splits at its first dot. -/
theorem exists_first_dot (cs : List Char) (h : '.' ∈ cs) :
    ∃ pre post, cs = pre ++ '.' :: post ∧ '.' ∉ pre := by
  induction cs with
  | nil => cases h
  | cons c cs ih =>
    by_cases hc : c = '.'
    · exact ⟨[], cs, by rw [hc]; rfl, by simp⟩
    · have h2 : '.' ∈ cs := by
        rcases List.mem_cons.mp h with h1 | h1
        · exact absurd h1.symm hc
        · exact h1
      obtain ⟨pre, post, hcs, hpre⟩ := ih h2
      refine ⟨c :: pre, post, by rw [List.cons_append, ← hcs], ?_⟩
      intro hmem
      rcases List.mem_cons.mp hmem with h1 | h1
      · exact hc h1.symm
      · exact hpre h1

/-- Helper: every string containing a dot is a dot-free base, a dot, and
a remainder. -/
theorem string_first_dot (u : String) (h : '.' ∈ u.toList) :
    ∃ b r, u = b ++ "." ++ r ∧ '.' ∉ b.toList := by
  obtain ⟨pre, post, hcs, hpre⟩ := exists_first_dot u.toList h
  refine ⟨String.mk pre, String.mk post, ?_, hpre⟩
  have hu : u = String.mk (pre ++ '.' :: post) := by
    conv_lhs => rw [show u = String.mk u.toList from rfl]
    rw [hcs]
  rw [hu]
  show String.mk (pre ++ '.' :: post) = String.mk ((pre ++ ['.']) ++ post)
  rw [List.append_assoc]
  rfl

/-- C5 (amended): `parse_accession` splits on the **first** literal dot:
for every dot-free base `b` and remainder `r`, parsing `b ++ "." ++ r`
returns `b` as the base and the integer parse of the segment of `r`
before its first dot (the segment between the full accession's first and
second dots) as the version, raising `ValueError` when that segment is
not an integer; every string containing a dot decomposes this way; with
no dot the version defaults to 1; both spec examples hold, and
`parse_accession "A.2.3"` is `("A", 2)`, not `("A.2", 3)`. -/
theorem parse_accession_first_dot (b r s : String)
    (hb : '.' ∉ b.toList) (hs : pySplitDot s = [s]) :
    parse_accession (b ++ "." ++ r)
      = (match pyInt ((pySplitDot r).headI) with
         | some v => Except.ok (b, v)
         | none => Except.error PyErr.valueError) ∧
    (∀ u : String, '.' ∈ u.toList →
        ∃ b2 r2, u = b2 ++ "." ++ r2 ∧ '.' ∉ b2.toList) ∧
    parse_accession s = Except.ok (s, 1) ∧
    parse_accession "BASE_000222935.2" = Except.ok ("BASE_000222935", 2) ∧
    parse_accession "BASE_000222935" = Except.ok ("BASE_000222935", 1) ∧
    parse_accession "A.2.3" = Except.ok ("A", 2) := by
  refine ⟨?_, fun u hu => string_first_dot u hu, ?_, by rfl, by rfl, by rfl⟩
  · unfold parse_accession
    rw [pySplitDot_first b r hb]
    cases hr : pySplitDot r with
    | nil => exact absurd hr (splitDotAux_ne_nil r.toList [])
    | cons p1 t => rfl
  · unfold parse_accession
    rw [hs]

theorem parse_accession_first_dot_witness :
    parse_accession ("BASE_000222935" ++ "." ++ "2")
      = (match pyInt ((pySplitDot "2").headI) with
         | some v => Except.ok ("BASE_000222935", v)
         | none => Except.error PyErr.valueError) :=
  (parse_accession_first_dot "BASE_000222935" "2" "X"
    (by decide) (by decide)).1

/-- C3: the claim that a malformed corpus record never aborts the scan
fails: `identify_assemblies_needing_backfill` has no exception handling,
so a record whose accession has a non-integer version suffix raises
`ValueError` from `int(...)`, and a record without an `accession` field
raises `KeyError`, aborting the run either way. -/
theorem backfill_scan_malformed_aborts_cex :
    identify_assemblies_needing_backfill [[("accession", Json.str "GCA_1.x")]]
      = Except.error PyErr.valueError ∧
    identify_assemblies_needing_backfill [[("name", Json.str "zebrafish")]]
      = Except.error PyErr.keyError := by
  exact ⟨rfl, rfl⟩

/-- Helper: the scan distributes over list append via its first error. -/
theorem identify_append_ok (pre post : List PyDict) (ts : List BackfillTask)
    (h : identify_assemblies_needing_backfill pre = Except.ok ts) :
    identify_assemblies_needing_backfill (pre ++ post)
      = match identify_assemblies_needing_backfill post with
        | Except.error e => Except.error e
        | Except.ok ts2 => Except.ok (ts ++ ts2) := by
  induction pre generalizing ts with
  | nil =>
    simp only [identify_assemblies_needing_backfill] at h
    cases h
    simp [identify_assemblies_needing_backfill]
    cases identify_assemblies_needing_backfill post <;> simp
  | cons a rest ih =>
    simp only [identify_assemblies_needing_backfill] at h ⊢
    cases hs : scanRecord a with
    | error e => rw [hs] at h; cases h
    | ok t? =>
      rw [hs] at h
      cases hr : identify_assemblies_needing_backfill rest with
      | error e => rw [hr] at h; cases h
      | ok ts1 =>
        rw [hr] at h
        simp only [List.append_eq]
        rw [ih ts1 hr]
        cases hp : identify_assemblies_needing_backfill post with
        | error e =>
          cases t? <;> simp_all
        | ok ts2 =>
          cases t? with
          | none => simp at h; subst h; simp
          | some t => simp at h; subst h; simp

/-- C3 (amended): a malformed record aborts the scan: if the records
before it scan cleanly, a record that raises (missing `accession` field,
non-string accession, or non-integer version suffix) makes
`identify_assemblies_needing_backfill` propagate that exception for the
whole corpus — no skipping, no logging, and later records are never
scanned. -/
theorem backfill_scan_malformed_aborts (pre post : List PyDict)
    (r : PyDict) (ts : List BackfillTask) (e : PyErr)
    (hpre : identify_assemblies_needing_backfill pre = Except.ok ts)
    (hr : scanRecord r = Except.error e) :
    identify_assemblies_needing_backfill (pre ++ r :: post)
      = Except.error e := by
  rw [identify_append_ok pre (r :: post) ts hpre]
  simp only [identify_assemblies_needing_backfill, hr]

theorem backfill_scan_malformed_aborts_witness :
    identify_assemblies_needing_backfill
      ([[("accession", Json.str "GCA_000002035.3")]] ++
        [("accession", Json.str "GCA_1.x")] :: [[("accession", Json.str "GCA_000001405.1")]])
      = Except.error PyErr.valueError :=
  backfill_scan_malformed_aborts
    [[("accession", Json.str "GCA_000002035.3")]]
    [[("accession", Json.str "GCA_000001405.1")]]
    [("accession", Json.str "GCA_1.x")]
    [{ base_accession := "GCA_000002035", current_version := 3,
       current_accession := "GCA_000002035.3",
       historical_versions_needed := [1, 2] }]
    PyErr.valueError (by decide) (by decide)

/-- Helper: on a record the scan accepts, the implementation's per-record
outcome agrees with the spec's description of the scan. -/
theorem scanRecord_spec (a : PyDict) (t? : Option BackfillTask)
    (h : scanRecord a = Except.ok t?) : specScanTask a = t? := by
  cases hg : pyGet a "accession" with
  | none => simp [scanRecord, hg] at h
  | some j =>
    cases j with
    | str accession =>
      cases hp : parse_accession accession with
      | error e => simp [scanRecord, hg, hp] at h
      | ok bv =>
        obtain ⟨base_acc, version⟩ := bv
        by_cases hv : version > 1
        · simp [scanRecord, hg, hp, hv] at h
          simp [specScanTask, hg, hp, hv]
          exact h
        · simp [scanRecord, hg, hp, hv] at h
          simp [specScanTask, hg, hp, hv]
          exact h
    | null => simp [scanRecord, hg] at h
    | bool b => simp [scanRecord, hg] at h
    | num n => simp [scanRecord, hg] at h
    | arr l => simp [scanRecord, hg] at h
    | obj o => simp [scanRecord, hg] at h

/-- C4: on every corpus the scan completes on, the produced task list is
exactly the in-order image of the records under the spec's per-record
description: one task per record with version > 1 (base, current version
and current accession taken from the record, historical versions
`list(range(1, v))`), no task for version 1, corpus order preserved. -/
theorem backfill_scan_tasks (corpus : List PyDict) (ts : List BackfillTask)
    (h : identify_assemblies_needing_backfill corpus = Except.ok ts) :
    ts = corpus.filterMap specScanTask := by
  induction corpus generalizing ts with
  | nil =>
    simp only [identify_assemblies_needing_backfill] at h
    cases h
    simp
  | cons a rest ih =>
    simp only [identify_assemblies_needing_backfill] at h
    cases hs : scanRecord a with
    | error e => rw [hs] at h; cases h
    | ok t? =>
      rw [hs] at h
      cases hr : identify_assemblies_needing_backfill rest with
      | error e => rw [hr] at h; cases h
      | ok ts1 =>
        rw [hr] at h
        have hspec := scanRecord_spec a t? hs
        cases t? with
        | none =>
          injection h with h1
          subst h1
          simp [List.filterMap_cons, hspec]
          exact ih ts1 hr
        | some t =>
          injection h with h1
          subst h1
          simp [List.filterMap_cons, hspec]
          exact ih ts1 hr

theorem backfill_scan_tasks_witness :
    identify_assemblies_needing_backfill
        [[("accession", Json.str "GCA_000002035.3")],
         [("accession", Json.str "GCA_000001405.1")],
         [("accession", Json.str "GCF_000222935.2")]]
      = Except.ok
        [{ base_accession := "GCA_000002035", current_version := 3,
           current_accession := "GCA_000002035.3",
           historical_versions_needed := [1, 2] },
         { base_accession := "GCF_000222935", current_version := 2,
           current_accession := "GCF_000222935.2",
           historical_versions_needed := [1] }] ∧
    [{ base_accession := "GCA_000002035", current_version := 3,
       current_accession := "GCA_000002035.3",
       historical_versions_needed := [1, 2] },
     { base_accession := "GCF_000222935", current_version := 2,
       current_accession := "GCF_000222935.2",
       historical_versions_needed := [1] }]
      = List.filterMap specScanTask
        [[("accession", Json.str "GCA_000002035.3")],
         [("accession", Json.str "GCA_000001405.1")],
         [("accession", Json.str "GCF_000222935.2")]] :=
  ⟨by decide, backfill_scan_tasks _ _ (by decide)⟩

/-- C8: `load_from_cache` never propagates an exception — every raise in
its body is caught and turned into the absent value `{}` — and it returns
`{}` when the entry does not exist, when its bytes fail to parse, and when
it is at least `max_age_days` old, staleness being judged against the
read call's own `max_age_days` and clock; a fresh, parseable entry is
returned as stored. -/
theorem cache_read_never_raises (fs : CacheFS) (now : Int)
    (cache_path : String) (max_age_days : Int) :
    (∀ e, loadFromCacheBody fs now cache_path max_age_days = Except.error e →
        load_from_cache fs now cache_path max_age_days = []) ∧
    (fs cache_path = none → load_from_cache fs now cache_path max_age_days = []) ∧
    (∀ f, fs cache_path = some f → f.content = none →
        load_from_cache fs now cache_path max_age_days = []) ∧
    (∀ f, fs cache_path = some f →
        ¬ (now - f.mtime < max_age_days * 24 * 3600) →
        load_from_cache fs now cache_path max_age_days = []) ∧
    (∀ f d, fs cache_path = some f → f.content = some d →
        now - f.mtime < max_age_days * 24 * 3600 →
        load_from_cache fs now cache_path max_age_days = d) := by
  refine ⟨?_, ?_, ?_, ?_, ?_⟩
  · intro e he
    unfold load_from_cache
    rw [he]
  · intro hnone
    simp [load_from_cache, loadFromCacheBody, hnone]
  · intro f hf hc
    by_cases hage : now - f.mtime < max_age_days * 24 * 3600
    · simp [load_from_cache, loadFromCacheBody, hf, hc, hage]
    · simp [load_from_cache, loadFromCacheBody, hf, hage]
  · intro f hf hage
    simp [load_from_cache, loadFromCacheBody, hf, hage]
  · intro f d hf hc hage
    simp [load_from_cache, loadFromCacheBody, hf, hc, hage]

theorem cache_read_never_raises_witness :
    load_from_cache (fun _ => none) 0 "tmp/backfill_cache/metadata/x.json" 30 = [] :=
  (cache_read_never_raises (fun _ => none) 0 "tmp/backfill_cache/metadata/x.json" 30).2.1 rfl

/-- C10: a read immediately after a successful cache write returns the
written payload — which for the empty object `{}` is literally the same
value `{}` that signals a cache miss, so callers cannot tell a cached
empty payload from no entry — and the discovery cache-hit test used by
`find_all_assembly_versions` accepts only nonempty payloads that carry
the key `"versions"`. -/
theorem cache_roundtrip (fs : CacheFS) (cache_path : String) (data : PyDict)
    (wtime now max_age_days : Int)
    (hfresh : now - wtime < max_age_days * 24 * 3600) :
    load_from_cache (save_to_cache fs cache_path data wtime) now cache_path
        max_age_days = data ∧
    (data = [] →
      load_from_cache (save_to_cache fs cache_path data wtime) now cache_path
          max_age_days
        = load_from_cache (fun _ => none) now cache_path max_age_days) ∧
    discoveryCacheHit [] = false ∧
    (∀ d : PyDict, discoveryCacheHit d = true →
        d ≠ [] ∧ hasKey d "versions" = true) := by
  have hload : load_from_cache (save_to_cache fs cache_path data wtime) now
      cache_path max_age_days = data := by
    simp [load_from_cache, loadFromCacheBody, save_to_cache, hfresh]
  refine ⟨hload, ?_, rfl, ?_⟩
  · intro hdata
    rw [hload, hdata]
    rfl
  · intro d hd
    unfold discoveryCacheHit dictTruthy at hd
    rw [Bool.and_eq_true, Bool.not_eq_true'] at hd
    refine ⟨?_, hd.2⟩
    intro hnil
    subst hnil
    simp at hd

theorem cache_roundtrip_witness :
    load_from_cache
        (save_to_cache (fun _ => none) "tmp/backfill_cache/metadata/m.json"
          [("metadata", Json.null)] 0)
        5 "tmp/backfill_cache/metadata/m.json" 30
      = [("metadata", Json.null)] :=
  (cache_roundtrip (fun _ => none) "tmp/backfill_cache/metadata/m.json"
    [("metadata", Json.null)] 0 5 30 (by decide)).1

/-- C9: the claim that checkpoint saves go through a temporary file and a
rename fails: `save_checkpoint` opens the checkpoint path itself with mode
`'w'`, so during the write an interrupted reader observes the truncated
file — a state that is neither the previous nor the new checkpoint — and
`load_checkpoint` on it raises instead of returning the last saved
count. -/
theorem checkpoint_save_not_atomic_cex :
    (save_checkpoint_states (some (CkptContent.written 100 "t0")) 200 "t1").get? 1
        = some (some CkptContent.truncated) ∧
    load_checkpoint (some CkptContent.truncated) = Except.error PyErr.valueError ∧
    some CkptContent.truncated ≠ some (CkptContent.written 100 "t0") ∧
    some CkptContent.truncated ≠ some (CkptContent.written 200 "t1") := by
  exact ⟨rfl, rfl, by decide, by decide⟩

/-- C9 (amended): `save_checkpoint` writes `{processed_count, timestamp}`
in place — truncate, then write, with no temporary location and no rename
— so an interrupted save can expose a truncated file on which
`load_checkpoint` raises rather than returning the last successfully
saved count; only an uninterrupted save ends with a file that loads to
the new count. -/
theorem checkpoint_save_in_place (previous : Option CkptContent)
    (processed_count : Nat) (timestamp : String) :
    (save_checkpoint_states previous processed_count timestamp).head? = some previous ∧
    (save_checkpoint_states previous processed_count timestamp).get? 1
        = some (some CkptContent.truncated) ∧
    (save_checkpoint_states previous processed_count timestamp).getLast?
        = some (some (CkptContent.written processed_count timestamp)) ∧
    load_checkpoint (some CkptContent.truncated) = Except.error PyErr.valueError ∧
    load_checkpoint (some (CkptContent.written processed_count timestamp))
        = Except.ok [("processed_count", Json.num processed_count),
                     ("timestamp", Json.str timestamp)] :=
  ⟨rfl, rfl, rfl, rfl, rfl⟩

/-- Helper: `charListLe` is total. -/
theorem charListLe_total (as bs : List Char) :
    charListLe as bs = true ∨ charListLe bs as = true := by
  induction as generalizing bs with
  | nil => left; rfl
  | cons a as ih =>
    cases bs with
    | nil => right; rfl
    | cons b bs =>
      by_cases h1 : a.toNat < b.toNat
      · left; simp [charListLe, h1]
      · by_cases h2 : b.toNat < a.toNat
        · right; simp [charListLe, h2]
        · cases ih bs with
          | inl h => left; simp [charListLe, h1, h2, h]
          | inr h => right; simp [charListLe, h1, h2, h]

/-- Helper: `charListLe` is transitive. -/
theorem charListLe_trans (as bs cs : List Char)
    (h1 : charListLe as bs = true) (h2 : charListLe bs cs = true) :
    charListLe as cs = true := by
  induction as generalizing bs cs with
  | nil => rfl
  | cons a as ih =>
    cases bs with
    | nil => simp [charListLe] at h1
    | cons b bs =>
      cases cs with
      | nil => simp [charListLe] at h2
      | cons c cs =>
        simp only [charListLe] at h1 h2 ⊢
        by_cases hab : a.toNat < b.toNat
        · by_cases hbc : b.toNat < c.toNat
          · have hac : a.toNat < c.toNat := by omega
            simp [hac]
          · by_cases hcb : c.toNat < b.toNat
            · simp [hbc, hcb] at h2
            · have hac : a.toNat < c.toNat := by omega
              simp [hac]
        · by_cases hba : b.toNat < a.toNat
          · simp [hab, hba] at h1
          · by_cases hbc : b.toNat < c.toNat
            · have hac : a.toNat < c.toNat := by omega
              simp [hac]
            · by_cases hcb : c.toNat < b.toNat
              · simp [hbc, hcb] at h2
              · have hac : ¬ a.toNat < c.toNat := by omega
                have hca : ¬ c.toNat < a.toNat := by omega
                simp [hab, hba] at h1
                simp [hbc, hcb] at h2
                simp [hac, hca]
                exact ih bs cs h1 h2

/-- C6: the claim that the candidate list is in ascending **numeric**
version order fails: `sorted(list(set(found_versions)))` sorts Python
strings lexicographically, so for the same base, version `.10` sorts
before version `.2` — the accession with the numerically smaller version
does not precede the larger one. -/
theorem discovery_candidates_numeric_order_cex :
    uniqueVersions
        (pyFindallVersions "GCA_000000001"
          "<a>GCA_000000001.2</a> <a>GCA_000000001.10</a>")
      = ["GCA_000000001.10", "GCA_000000001.2"] ∧
    parse_version "GCA_000000001.10" = Except.ok 10 ∧
    parse_version "GCA_000000001.2" = Except.ok 2 := by
  exact ⟨by decide, rfl, rfl⟩

/-- C6 (amended): the candidate list extracted from a directory listing is
deduplicated — each distinct accession appears at most once — and sorted
in ascending **lexicographic string** order (Python's `sorted` on `str`),
which disagrees with numeric version order once version numbers reach two
digits; no candidate is lost or invented by the dedup/sort. -/
theorem discovery_candidates_sorted_lexicographic (base text : String) :
    List.Sorted pyStrLe (uniqueVersions (pyFindallVersions base text)) ∧
    (uniqueVersions (pyFindallVersions base text)).Nodup ∧
    (∀ s, s ∈ uniqueVersions (pyFindallVersions base text) ↔
        s ∈ pyFindallVersions base text) := by
  have htot : IsTotal String pyStrLe :=
    ⟨fun a b => charListLe_total a.toList b.toList⟩
  have htrans : IsTrans String pyStrLe :=
    ⟨fun a b c h1 h2 => charListLe_trans a.toList b.toList c.toList h1 h2⟩
  refine ⟨?_, ?_, ?_⟩
  · exact @List.sorted_insertionSort _ pyStrLe _ htot htrans _
  · exact ((List.perm_insertionSort pyStrLe
      (pyFindallVersions base text).dedup).nodup_iff).mpr
      (List.nodup_dedup (pyFindallVersions base text))
  · intro s
    unfold uniqueVersions
    rw [List.Perm.mem_iff (List.perm_insertionSort pyStrLe
      (pyFindallVersions base text).dedup)]
    exact List.mem_dedup


/-- Helper: a successful single match of `base\.\d+` is the base followed
by a dot and a nonempty digit run. -/
theorem tryMatch_shape (base cs m rest : List Char)
    (h : tryMatch base cs = some (m, rest)) :
    ∃ ds, m = base ++ '.' :: ds ∧ ds ≠ [] ∧ ∀ c ∈ ds, c.isDigit = true := by
  unfold tryMatch at h
  by_cases htake : cs.take base.length = base
  · rw [if_pos htake] at h
    split at h
    · rename_i rest1 heq
      by_cases hds : (rest1.takeWhile (fun c => c.isDigit)).isEmpty
      · rw [if_pos hds] at h
        cases h
      · rw [if_neg hds] at h
        injection h with h1
        rw [Prod.mk.injEq] at h1
        refine ⟨rest1.takeWhile (fun c => c.isDigit), h1.1.symm, ?_, ?_⟩
        · intro hnil
          rw [hnil] at hds
          simp at hds
        · intro c hc
          exact List.mem_takeWhile_imp hc
    · cases h
  · rw [if_neg htake] at h
    cases h

/-- Helper: every string found by the textual scan is the base, a dot and
a nonempty digit run. -/
theorem findallAux_shape (base : List Char) (fuel : Nat) (cs m : List Char)
    (h : m ∈ findallAux base fuel cs) :
    ∃ ds, m = base ++ '.' :: ds ∧ ds ≠ [] ∧ ∀ c ∈ ds, c.isDigit = true := by
  induction fuel generalizing cs with
  | zero => simp [findallAux] at h
  | succ fuel ih =>
    cases cs with
    | nil => simp [findallAux] at h
    | cons c cs2 =>
      simp only [findallAux] at h
      cases htm : tryMatch base (c :: cs2) with
      | none => rw [htm] at h; exact ih cs2 h
      | some pr =>
        obtain ⟨m1, rest⟩ := pr
        rw [htm] at h
        rcases List.mem_cons.mp h with he | hm
        · rw [he]
          exact tryMatch_shape base (c :: cs2) m1 rest htm
        · exact ih rest hm

/-- Helper: every string found by the textual scan for `base` in `text`
has the base's characters followed by a dot and a nonempty digit run. -/
theorem pyFindallVersions_shape (base text s : String)
    (h : s ∈ pyFindallVersions base text) :
    ∃ ds, s.toList = base.toList ++ '.' :: ds ∧ ds ≠ [] ∧
      ∀ c ∈ ds, c.isDigit = true := by
  unfold pyFindallVersions at h
  rcases List.mem_map.mp h with ⟨m, hm, hs⟩
  obtain ⟨ds, hshape, hne, hdig⟩ := findallAux_shape _ _ _ _ hm
  refine ⟨ds, ?_, hne, hdig⟩
  rw [← hs]
  exact hshape

/-- Helper: the base extracted by the permissive regex is `GC`, `A` or
`F`, an underscore and digits. -/
theorem extractBase_shape (accession base : String)
    (h : extractBase accession = some base) :
    ∃ x ds, base.toList = 'G' :: 'C' :: x :: '_' :: ds ∧
      (x = 'A' ∨ x = 'F') ∧ ∀ c ∈ ds, c.isDigit = true := by
  unfold extractBase at h
  split at h
  · rename_i x rest heq
    by_cases hx : (x = 'A' || x = 'F') = true
    · rw [if_pos hx] at h
      by_cases hds : (rest.takeWhile (fun c => c.isDigit)).isEmpty
      · rw [if_pos hds] at h
        cases h
      · rw [if_neg hds] at h
        injection h with h1
        refine ⟨x, rest.takeWhile (fun c => c.isDigit), ?_, ?_, ?_⟩
        · rw [← h1]
          exact rfl
        · simpa using hx
        · intro c hc
          exact List.mem_takeWhile_imp hc
    · rw [if_neg hx] at h
      cases h
  · cases h

/-- Helper: no character of a well-shaped candidate is a newline. -/
theorem shape_no_newline (x : Char) (ds0 ds : List Char)
    (hx : x = 'A' ∨ x = 'F')
    (h0 : ∀ c ∈ ds0, c.isDigit = true) (h1 : ∀ c ∈ ds, c.isDigit = true) :
    '\n' ∉ ('G' :: 'C' :: x :: '_' :: ds0) ++ '.' :: ds := by
  intro hmem
  rcases List.mem_append.mp hmem with hL | hR
  · rcases List.mem_cons.mp hL with hc | hL
    · exact absurd hc (by decide)
    rcases List.mem_cons.mp hL with hc | hL
    · exact absurd hc (by decide)
    rcases List.mem_cons.mp hL with hc | hL
    · rcases hx with hx | hx <;> rw [hx] at hc <;> exact absurd hc (by decide)
    rcases List.mem_cons.mp hL with hc | hL
    · exact absurd hc (by decide)
    · have := h0 _ hL
      simp at this
  · rcases List.mem_cons.mp hR with hc | hR
    · exact absurd hc (by decide)
    · have := h1 _ hR
      simp at this

/-- Helper: a string the gate accepts and that contains no newline
matches the strict pattern against its whole contents. -/
theorem gate_true_no_newline (s : String)
    (hg : pyStrictGate s = true) (hn : '\n' ∉ s.toList) :
    strictAccessionMatch s = true := by
  unfold pyStrictGate at hg
  rw [Bool.or_eq_true] at hg
  rcases hg with h | h
  · exact h
  · exfalso
    cases hlast : s.toList.getLast? with
    | none =>
      rw [hlast] at h
      simp at h
    | some c =>
      simp only [hlast, Bool.and_eq_true, beq_iff_eq] at h
      exact hn (h.1 ▸ List.mem_of_getLast?_eq_some hlast)

/-- Helper: anything collected by the invocation fold was an input
candidate that passed the strict gate. -/
theorem collect_invocation_mem (datasets : DatasetsTool) (now : Int)
    (l : List String) (st : List String × CacheFS) (s : String)
    (h : s ∈ (l.foldl (collect_invocation datasets now) st).1) :
    s ∈ st.1 ∨ (s ∈ l ∧ pyStrictGate s = true) := by
  induction l generalizing st with
  | nil => exact Or.inl h
  | cons v rest ih =>
    simp only [List.foldl_cons] at h
    rcases ih (collect_invocation datasets now st v) h with hl | hr
    · by_cases h1 : metadataCacheHit
          (load_from_cache st.2 now (get_cache_path "metadata" v) 30) = true
      · simp only [collect_invocation, h1, if_true] at hl
        exact Or.inl hl
      · by_cases h2 : pyStrictGate v = true
        · cases hds : datasets v with
          | none =>
            simp only [collect_invocation, h1, h2, hds, if_true, if_false] at hl
            rcases List.mem_append.mp hl with hl | hl
            · exact Or.inl hl
            · right
              refine ⟨?_, ?_⟩
              · rw [List.mem_singleton.mp hl]
                exact List.mem_cons_self v rest
              · rw [List.mem_singleton.mp hl]
                exact h2
          | some j =>
            simp only [collect_invocation, h1, h2, hds, if_true, if_false] at hl
            rcases List.mem_append.mp hl with hl | hl
            · exact Or.inl hl
            · right
              refine ⟨?_, ?_⟩
              · rw [List.mem_singleton.mp hl]
                exact List.mem_cons_self v rest
              · rw [List.mem_singleton.mp hl]
                exact h2
        · simp only [collect_invocation, h1, h2, if_false] at hl
          exact Or.inl hl
    · exact Or.inr ⟨List.mem_cons_of_mem v hr.1, hr.2⟩

/-- Helper: membership in the dedup/sort output is membership in the
scan's raw output. -/
theorem mem_uniqueVersions (l : List String) (s : String) :
    s ∈ uniqueVersions l ↔ s ∈ l := by
  unfold uniqueVersions
  rw [List.Perm.mem_iff (List.perm_insertionSort pyStrLe l.dedup)]
  exact List.mem_dedup

/-- Helper: an accession interpolated into a `datasets` command passed the
strict gate and came out of the textual scan of the fetched listing. -/
theorem invokedAccessions_gate (net : Net) (datasets : DatasetsTool)
    (fs : CacheFS) (now : Int) (base_accession s : String)
    (h : s ∈ invokedAccessions net datasets fs now base_accession) :
    pyStrictGate s = true ∧ ∃ base text,
      extractBase base_accession = some base ∧
      s ∈ pyFindallVersions base text := by
  unfold invokedAccessions at h
  cases hb : extractBase base_accession with
  | none => simp [hb] at h
  | some base =>
    simp only [hb] at h
    by_cases h1 : discoveryCacheHit
        (load_from_cache fs now (get_cache_path "version_discovery" base) 7) = true
    · simp [h1] at h
    · simp only [h1, if_false, Bool.false_eq_true] at h
      cases hnet : net (ftp_url base) with
      | none => simp [hnet] at h
      | some pr =>
        obtain ⟨status, text⟩ := pr
        simp only [hnet] at h
        by_cases hst : status ≠ 200
        · simp [hst] at h
        · simp only [hst, if_false] at h
          rcases collect_invocation_mem datasets now
              (uniqueVersions (pyFindallVersions base text)) ([], fs) s h with
            hl | hr
          · simp at hl
          · exact ⟨hr.2, base, text, rfl, (mem_uniqueVersions _ s).mp hr.1⟩

/-- C7: every accession string interpolated into the external
metadata-summary (`datasets`) command invocation matches the strict
pattern `GC[AF]_` + nine digits + dot + digits against its entire
contents; the crafted value `"BASE_1; rm -rf /"` fails the gate and is
never among the invoked accessions. -/
theorem datasets_invocation_strict_gate (net : Net) (datasets : DatasetsTool)
    (fs : CacheFS) (now : Int) (base_accession s : String)
    (h : s ∈ invokedAccessions net datasets fs now base_accession) :
    strictAccessionMatch s = true ∧
    pyStrictGate "BASE_1; rm -rf /" = false ∧
    "BASE_1; rm -rf /" ∉ invokedAccessions net datasets fs now base_accession := by
  obtain ⟨hgate, base, text, hb, hfind⟩ :=
    invokedAccessions_gate net datasets fs now base_accession s h
  obtain ⟨ds, hsl, hne, hdig⟩ := pyFindallVersions_shape base text s hfind
  obtain ⟨x, ds0, hbase, hx, hdig0⟩ := extractBase_shape base_accession base hb
  have hnn : '\n' ∉ s.toList := by
    rw [hsl, hbase]
    exact shape_no_newline x ds0 ds hx hdig0 hdig
  refine ⟨gate_true_no_newline s hgate hnn, by decide, ?_⟩
  intro hbad
  exact absurd
    (invokedAccessions_gate net datasets fs now base_accession _ hbad).1
    (by decide)

theorem datasets_invocation_strict_gate_witness :
    "GCA_000000001.1" ∈ invokedAccessions
        (fun _ => some (200, "GCA_000000001.1"))
        (fun _ => none) (fun _ => none) 0 "GCA_000000001.2" ∧
    strictAccessionMatch "GCA_000000001.1" = true :=
  ⟨by decide, (datasets_invocation_strict_gate
      (fun _ => some (200, "GCA_000000001.1"))
      (fun _ => none) (fun _ => none) 0 "GCA_000000001.2" "GCA_000000001.1"
      (by decide)).1⟩

/-- C2: the claim that nothing is cached when discovery finds zero
candidates fails in the listing-matched-nothing case: with a successful
(200) fetch whose body matches no version accession, the run returns `[]`
**and writes** a `{'versions': []}` entry to the discovery cache; a
subsequent run within the cache window — here with a network that would
now find a version — returns the cached empty list instead of
re-attempting discovery (a fresh run with the same network finds one
version). -/
theorem discovery_empty_result_cached_cex :
    (find_all_assembly_versions (fun _ => some (200, "no matches here"))
        (fun _ => none) (fun _ => none) 0 "GCA_000000001.2").1 = [] ∧
    ((find_all_assembly_versions (fun _ => some (200, "no matches here"))
        (fun _ => none) (fun _ => none) 0 "GCA_000000001.2").2
      (get_cache_path "version_discovery" "GCA_000000001")).isSome = true ∧
    (find_all_assembly_versions (fun _ => some (200, "GCA_000000001.1"))
        (fun _ => some (Json.obj []))
        (find_all_assembly_versions (fun _ => some (200, "no matches here"))
          (fun _ => none) (fun _ => none) 0 "GCA_000000001.2").2
        3600 "GCA_000000001.2").1 = [] ∧
    ((find_all_assembly_versions (fun _ => some (200, "GCA_000000001.1"))
        (fun _ => some (Json.obj []))
        (fun _ => none) 0 "GCA_000000001.2").1).isEmpty = false := by
  exact ⟨rfl, rfl, rfl, rfl⟩

/-- C2 (amended): when the listing **fetch** fails (network error or
non-200 status) discovery returns the empty list and writes nothing to
the cache, deferring the base to a future run; but when the fetch
succeeds and the listing matches nothing, the empty result **is** written
to the discovery cache as `{'versions': [], ...}`, which a run inside the
7-day window then reads back instead of re-attempting discovery. -/
theorem discovery_empty_caching (net : Net) (datasets : DatasetsTool)
    (fs : CacheFS) (now : Int) (base_accession base : String)
    (hb : extractBase base_accession = some base)
    (hmiss : discoveryCacheHit (load_from_cache fs now
        (get_cache_path "version_discovery" base) 7) = false) :
    (net (ftp_url base) = none →
      find_all_assembly_versions net datasets fs now base_accession = ([], fs)) ∧
    (∀ status text, net (ftp_url base) = some (status, text) → status ≠ 200 →
      find_all_assembly_versions net datasets fs now base_accession = ([], fs)) ∧
    (∀ text, net (ftp_url base) = some (200, text) →
      pyFindallVersions base text = [] →
      (find_all_assembly_versions net datasets fs now base_accession).1 = [] ∧
      (find_all_assembly_versions net datasets fs now base_accession).2
          (get_cache_path "version_discovery" base)
        = some (CacheFile.mk now (some
            [("versions", Json.arr []),
             ("base_accession", Json.str base),
             ("discovered_at", Json.num now),
             ("ftp_url", Json.str (ftp_url base))]))) := by
  refine ⟨?_, ?_, ?_⟩
  · intro hnet
    simp [find_all_assembly_versions, hb, hmiss, hnet]
  · intro status text hnet hst
    simp [find_all_assembly_versions, hb, hmiss, hnet, hst]
  · intro text hnet hfind
    constructor
    · simp [find_all_assembly_versions, hb, hmiss, hnet, hfind, uniqueVersions]
    · simp [find_all_assembly_versions, hb, hmiss, hnet, hfind, uniqueVersions,
        save_to_cache]

theorem discovery_empty_caching_witness :
    find_all_assembly_versions (fun _ => none) (fun _ => none)
        (fun _ => none) 0 "GCA_000000001.2"
      = ([], (fun _ => none : CacheFS)) :=
  (discovery_empty_caching (fun _ => none) (fun _ => none) (fun _ => none) 0
    "GCA_000000001.2" "GCA_000000001" (by decide) rfl).1 rfl

/-- Helper: every driver iteration advances the processed counter by
exactly one, whether or not discovery found versions. -/
theorem driverStep_processed (disc : BackfillTask → List Json)
    (rowOf : BackfillTask → Json → Option (String × Json))
    (s : DriverState) (t : BackfillTask) :
    (driverStep disc rowOf s t).processed = s.processed + 1 := by
  unfold driverStep
  by_cases h1 : (disc t).isEmpty = true
  · simp [h1]
  · by_cases h2 : (s.processed + 1) % 100 = 0
    · simp [h1, h2]
    · simp [h1, h2]

/-- Helper: a driver iteration either leaves the checkpoint alone or
saves the incremented count, which is then a multiple of 100. -/
theorem driverStep_checkpoint (disc : BackfillTask → List Json)
    (rowOf : BackfillTask → Json → Option (String × Json))
    (s : DriverState) (t : BackfillTask) :
    (driverStep disc rowOf s t).checkpoint = s.checkpoint ∨
    ((driverStep disc rowOf s t).checkpoint = some (s.processed + 1) ∧
      (s.processed + 1) % 100 = 0) := by
  unfold driverStep
  by_cases h1 : (disc t).isEmpty = true
  · left; simp [h1]
  · by_cases h2 : (s.processed + 1) % 100 = 0
    · right; simp [h1, h2]
    · left; simp [h1, h2]

/-- Helper: across the whole task loop the processed counter grows by the
number of tasks. -/
theorem driverLoop_processed (disc : BackfillTask → List Json)
    (rowOf : BackfillTask → Json → Option (String × Json))
    (tasks : List BackfillTask) (s0 : DriverState) :
    (tasks.foldl (driverStep disc rowOf) s0).processed
      = s0.processed + tasks.length := by
  induction tasks generalizing s0 with
  | nil => simp
  | cons t ts ih =>
    simp only [List.foldl_cons, ih, driverStep_processed, List.length_cons]
    omega

/-- Helper: across the whole task loop the checkpoint is either untouched
or holds a multiple of 100. -/
theorem driverLoop_checkpoint (disc : BackfillTask → List Json)
    (rowOf : BackfillTask → Json → Option (String × Json))
    (tasks : List BackfillTask) (s0 : DriverState) :
    (tasks.foldl (driverStep disc rowOf) s0).checkpoint = s0.checkpoint ∨
    ∃ c, (tasks.foldl (driverStep disc rowOf) s0).checkpoint = some c ∧
      c % 100 = 0 := by
  induction tasks generalizing s0 with
  | nil => left; rfl
  | cons t ts ih =>
    simp only [List.foldl_cons]
    rcases ih (driverStep disc rowOf s0 t) with hl | hr
    · rcases driverStep_checkpoint disc rowOf s0 t with hs | hs
      · left; rw [hl, hs]
      · right; exact ⟨s0.processed + 1, by rw [hl, hs.1], hs.2⟩
    · right; exact hr

/-- C1 (amended): the periodic flush — reached only through a task whose
discovery returned versions and whose completion makes the processed
count a multiple of 100 — both writes the accumulated rows and saves a
checkpoint with the new count; the end-of-input step writes any remaining
rows but saves **no** checkpoint, so after the final write the checkpoint
holds the last flushed multiple of 100 (or its value from before the
loop), not the final processed count. -/
theorem backfill_driver_flush_checkpoint (disc : BackfillTask → List Json)
    (rowOf : BackfillTask → Json → Option (String × Json))
    (tasks : List BackfillTask) (s0 : DriverState) (k : Nat)
    (parsed : PyDict) (ckpt : Option Nat) (writes : List PyDict)
    (t : BackfillTask) :
    (runBackfillDriver disc rowOf tasks s0).checkpoint
        = (tasks.foldl (driverStep disc rowOf) s0).checkpoint ∧
    (runBackfillDriver disc rowOf tasks s0).processed
        = s0.processed + tasks.length ∧
    ((tasks.foldl (driverStep disc rowOf) s0).checkpoint = s0.checkpoint ∨
      ∃ c, (tasks.foldl (driverStep disc rowOf) s0).checkpoint = some c ∧
        c % 100 = 0) ∧
    (driverStep disc rowOf
        { processed := 100 * k + 99, parsed := parsed, checkpoint := ckpt,
          writes := writes } t).checkpoint
      = (if (disc t).isEmpty then ckpt else some (100 * k + 100)) ∧
    (driverStep disc rowOf
        { processed := 100 * k + 99, parsed := parsed, checkpoint := ckpt,
          writes := writes } t).writes
      = (if (disc t).isEmpty then writes
         else writes ++ [(disc t).foldl
            (fun d v => match rowOf t v with
              | some (key, row) => dictInsert d key row
              | none => d) parsed]) ∧
    (runBackfillDriver disc rowOf tasks s0).writes
      = (if (tasks.foldl (driverStep disc rowOf) s0).parsed.isEmpty
         then (tasks.foldl (driverStep disc rowOf) s0).writes
         else (tasks.foldl (driverStep disc rowOf) s0).writes
            ++ [(tasks.foldl (driverStep disc rowOf) s0).parsed]) := by
  have hmod : (100 * k + 99 + 1) % 100 = 0 := by omega
  refine ⟨?_, ?_, driverLoop_checkpoint disc rowOf tasks s0, ?_, ?_, ?_⟩
  · unfold runBackfillDriver
    by_cases hp : (tasks.foldl (driverStep disc rowOf) s0).parsed.isEmpty = true
    · simp [hp]
    · simp [hp]
  · unfold runBackfillDriver
    by_cases hp : (tasks.foldl (driverStep disc rowOf) s0).parsed.isEmpty = true
    · simp [hp, driverLoop_processed]
    · simp [hp, driverLoop_processed]
  · unfold driverStep
    by_cases h1 : (disc t).isEmpty = true
    · simp [h1]
    · simp [h1, hmod]
  · unfold driverStep
    by_cases h1 : (disc t).isEmpty = true
    · simp [h1]
    · simp [h1, hmod]
  · unfold runBackfillDriver
    by_cases hp : (tasks.foldl (driverStep disc rowOf) s0).parsed.isEmpty = true
    · simp [hp]
    · simp [hp]

/-- C1: the claim that after the final end-of-input row write the
checkpoint file holds the final processed count fails: the final
`write_tsv` call at end-of-input is not paired with a `save_checkpoint`,
so a run over one task that produces a row ends with one written batch,
a processed count of 1, and no checkpoint saved at all. -/
theorem backfill_driver_final_checkpoint_cex :
    (runBackfillDriver (fun _ => [Json.null])
        (fun t _ => some (t.current_accession, Json.obj []))
        [{ base_accession := "GCA_000000001", current_version := 2,
           current_accession := "GCA_000000001.2",
           historical_versions_needed := [1] }]
        { processed := 0, parsed := [], checkpoint := none,
          writes := [] }).processed = 1 ∧
    ((runBackfillDriver (fun _ => [Json.null])
        (fun t _ => some (t.current_accession, Json.obj []))
        [{ base_accession := "GCA_000000001", current_version := 2,
           current_accession := "GCA_000000001.2",
           historical_versions_needed := [1] }]
        { processed := 0, parsed := [], checkpoint := none,
          writes := [] }).writes).length = 1 ∧
    (runBackfillDriver (fun _ => [Json.null])
        (fun t _ => some (t.current_accession, Json.obj []))
        [{ base_accession := "GCA_000000001", current_version := 2,
           current_accession := "GCA_000000001.2",
           historical_versions_needed := [1] }]
        { processed := 0, parsed := [], checkpoint := none,
          writes := [] }).checkpoint = none := by
  exact ⟨rfl, rfl, rfl⟩
